import Mathlib

/-!
Frame selection of `elegoo-timelapser` (`src/main.go`).

A shallow embedding of the frame-number extraction, the sort and the selection
loop of `filterImages`, together with a small interleaving model of its
matching stage.

Modelling conventions.

* Go `int` coordinates are `Int`; the subtraction `minPoint.X - matchRect.Min.X`
  is taken without wrap-around, the operands being pixel coordinates.
* Go `float64` values (`avgDeltaY`, `deltaY`, the two thresholds) are binary
  floating-point numbers with a 53-bit mantissa; every operation rounds its
  exact result to the nearest such number, ties to even, one operation at a
  time (as the compiler does on amd64). The literals `0.01` and `0.02` are the
  `float64` constants the compiler makes of them.
* `sort.Slice` is library code: `selectImages` takes it as an argument, and
  what is proved of it holds for every routine that sorts; `insertionSort` is
  one such routine.
* `log.Fatalln` ends the process: a function that may end that way returns
  `Option`, with `none` for the fatal exit.
* The answer of the operator in `confirmImageSelection` is a function
  `confirm : String → String → Bool` of the two paths it is shown. The paths of
  one directory listing are distinct, so every call of a run has its own
  second argument and any sequence of answers is given by such a function.
* `LoopState` carries, next to the three variables of the loop, two history
  fields that no branch reads: the match results accepted so far and the
  arguments of the calls made to the confirmation step so far.
-/

namespace Timelapser

/-! ## Data model -/

/-- Go `image.Point`. -/
structure Point where
  X : Int
  Y : Int
deriving DecidableEq, Repr

/-- Go `image.Rectangle`. -/
structure Rectangle where
  Min : Point
  Max : Point
deriving DecidableEq, Repr

/-- Width of a rectangle, `Rectangle.Dx`. -/
def Rectangle.Dx (r : Rectangle) : Int := r.Max.X - r.Min.X

/-- Height of a rectangle, `Rectangle.Dy`. -/
def Rectangle.Dy (r : Rectangle) : Int := r.Max.Y - r.Min.Y

/-- The struct `matchedTemplateOutput` (lines 106-109). -/
structure matchedTemplateOutput where
  rect : Rectangle
  imagePath : String
deriving DecidableEq, Repr

/-- A `gocv.Mat`, of which `filterImages` itself reads only the dimensions. -/
structure Mat where
  cols : Int
  rows : Int
deriving DecidableEq, Repr

/-- The method `Mat.Cols`. -/
def Mat.Cols (m : Mat) : Int := m.cols

/-- The method `Mat.Rows`. -/
def Mat.Rows (m : Mat) : Int := m.rows

/-- The method `Mat.Region`: the sub-matrix under `roi`, as large as `roi`. -/
def Mat.Region (_m : Mat) (roi : Rectangle) : Mat := ⟨roi.Dx, roi.Dy⟩

/-! ## `extractImageNumber` (lines 83-95) -/

/-- The class `\d` of Go regular expressions: the ASCII digits. -/
def isDigit (c : Char) : Bool := decide ('0' ≤ c) && decide (c ≤ '9')

/-- The class `\w` of Go regular expressions: `[0-9A-Za-z_]`. -/
def isWord (c : Char) : Bool :=
  isDigit c || (decide ('A' ≤ c) && decide (c ≤ 'Z')) ||
    (decide ('a' ≤ c) && decide (c ≤ 'z')) || c == '_'

/-- A match of `(\d+)\.\w+$` that starts at the head of `s`, as its first
group. The greedy `\d+` can only be followed by `.` after the whole run of
digits, and `\w+$` has to use up the rest of the text. -/
def matchHere (s : List Char) : Option (List Char) :=
  match s.takeWhile isDigit, s.dropWhile isDigit with
  | d :: ds, '.' :: ext => if ext ≠ [] ∧ ext.all isWord = true then some (d :: ds) else none
  | _, _ => none

/-- First group of the leftmost match of `(\d+)\.\w+$` in the text, as
`FindAllStringSubmatch(path, 1)` finds it; `none` when nothing matches. -/
def findSubmatch : List Char → Option (List Char)
  | [] => none
  | c :: cs =>
    match matchHere (c :: cs) with
    | some ds => some ds
    | none => findSubmatch cs

/-- Value of one decimal digit. -/
def digitValue (c : Char) : Nat := c.toNat - '0'.toNat

/-- Value of a string of decimal digits, read in base ten. -/
def decimalValue (ds : List Char) : Nat :=
  ds.foldl (fun acc c => 10 * acc + digitValue c) 0

/-- Largest Go `int` on a 64-bit platform. -/
def maxInt : Int := 2 ^ 63 - 1

/-- Go `strconv.Atoi` on a non-empty string of digits: an error (`none`) when
the value is out of the range of `int`. -/
def atoi (ds : List Char) : Option Int :=
  if (decimalValue ds : Int) ≤ maxInt then some (decimalValue ds : Int) else none

/-- The function `extractImageNumber`; `none` is the exit through
`log.Fatalln`, taken when the expression does not match and when `Atoi`
fails. -/
def extractImageNumber (path : String) : Option Int :=
  match findSubmatch path.data with
  | none => none
  | some ds =>
    match atoi ds with
    | none => none
    | some d => some d

/-! ## Go `float64` arithmetic -/

/-- A finite `float64` value `mant * 2 ^ exp`. The values the operations below
return are zero, as `⟨0, 0⟩`, or have a 53-bit mantissa,
`2 ^ 52 ≤ |mant| < 2 ^ 53`. The exponent is not bounded: with `int`
coordinates every non-zero value of the selection loop has a magnitude between
`2 ^ (-7)` and `2 ^ 65`, far from underflow and overflow. -/
structure Float64 where
  mant : Int
  exp : Int
deriving DecidableEq, Repr

/-- Number of binary digits of `n`, by halving `n` at most `fuel` times. -/
def bitLengthAux : Nat → Nat → Nat
  | 0, _ => 0
  | fuel + 1, n => if n = 0 then 0 else bitLengthAux fuel (n / 2) + 1

/-- Number of binary digits of `n`. -/
def bitLength (n : Nat) : Nat := bitLengthAux n n

/-- The `float64` nearest to `M * 2 ^ E`, ties to the even mantissa (the
rounding of every IEEE 754 operation in its default mode). -/
def Float64.round (M E : Int) : Float64 :=
  if M = 0 then ⟨0, 0⟩
  else if bitLength M.natAbs ≤ 53 then
    ⟨M * 2 ^ (53 - bitLength M.natAbs), E - ((53 - bitLength M.natAbs : Nat) : Int)⟩
  else
    let k := bitLength M.natAbs - 53
    let q := M.natAbs / 2 ^ k
    let r := M.natAbs % 2 ^ k
    let q2 := if 2 ^ (k - 1) < r ∨ (r = 2 ^ (k - 1) ∧ q % 2 = 1) then q + 1 else q
    if q2 = 2 ^ 53 then ⟨M.sign * 2 ^ 52, E + (k : Int) + 1⟩
    else ⟨M.sign * (q2 : Int), E + (k : Int)⟩

/-- The conversion `float64(z)` of an `int`. -/
def Float64.ofInt (z : Int) : Float64 := Float64.round z 0

/-- The mantissa of `x` at the smaller `e` of two exponents. -/
def Float64.mantAt (x : Float64) (e : Int) : Int := x.mant * 2 ^ (x.exp - e).toNat

/-- The sum `x + y`: the exact sum, rounded. -/
def Float64.add (x y : Float64) : Float64 :=
  Float64.round (x.mantAt (min x.exp y.exp) + y.mantAt (min x.exp y.exp)) (min x.exp y.exp)

/-- The difference `x - y`: the exact difference, rounded. -/
def Float64.sub (x y : Float64) : Float64 :=
  Float64.round (x.mantAt (min x.exp y.exp) - y.mantAt (min x.exp y.exp)) (min x.exp y.exp)

/-- The product `x * y`: the exact product, rounded. -/
def Float64.mul (x y : Float64) : Float64 :=
  Float64.round (x.mant * y.mant) (x.exp + y.exp)

/-- The quotient `x / 2`, which is exact. -/
def Float64.half (x : Float64) : Float64 :=
  if x.mant = 0 then x else ⟨x.mant, x.exp - 1⟩

/-- The function `math.Abs`. -/
def Float64.abs (x : Float64) : Float64 := ⟨|x.mant|, x.exp⟩

/-- The comparison `x < y`. -/
def Float64.lt (x y : Float64) : Bool :=
  decide (x.mantAt (min x.exp y.exp) < y.mantAt (min x.exp y.exp))

/-- The comparison `x == 0`. -/
def Float64.isZero (x : Float64) : Bool := decide (x.mant = 0)

/-- The rational number a `float64` stands for. -/
def Float64.toRat (x : Float64) : ℚ := (x.mant : ℚ) * (2 : ℚ) ^ x.exp

/-- The literal `0.`. -/
def Float64.zero : Float64 := ⟨0, 0⟩

/-- The constant `0.01` as a `float64`: `0x3F847AE147AE147B`. -/
def Float64.c001 : Float64 := ⟨5764607523034235, -59⟩

/-- The constant `0.02` as a `float64`: `0x3F947AE147AE147B`. -/
def Float64.c002 : Float64 := ⟨5764607523034235, -58⟩

/-! ## The sort of the results (lines 163-165) -/

/-- The comparison passed to `sort.Slice`; it ends the process when one of the
two paths has no number. -/
def less (a b : matchedTemplateOutput) : Option Bool :=
  match extractImageNumber a.imagePath, extractImageNumber b.imagePath with
  | some x, some y => some (decide (x < y))
  | _, _ => none

/-- Insertion of `x` in front of the sorted `ys`: `x` moves past the entries
that compare below it. -/
def insertSorted (x : matchedTemplateOutput) :
    List matchedTemplateOutput → Option (List matchedTemplateOutput)
  | [] => some [x]
  | y :: ys =>
    match less y x with
    | none => none
    | some true =>
      match insertSorted x ys with
      | none => none
      | some r => some (y :: r)
    | some false => some (x :: y :: ys)

/-- Insertion sort with the comparison `less`: what `sort.Slice` runs on a
slice of fewer than 12 elements. No comparison is made on fewer than two
results. -/
def insertionSort : List matchedTemplateOutput → Option (List matchedTemplateOutput)
  | [] => some []
  | x :: xs =>
    match insertionSort xs with
    | none => none
    | some s => insertSorted x s

/-- The sequence number of the first path is at most that of the second. -/
def numberLE (p q : String) : Prop :=
  ∃ x y : Int, extractImageNumber p = some x ∧ extractImageNumber q = some y ∧ x ≤ y

/-- Ascending order of two results by the sequence number of their path. -/
def itemLE (a b : matchedTemplateOutput) : Prop := numberLE a.imagePath b.imagePath

/-- What the Go library promises of `sort.Slice(results, less)`, the routine
itself being library code that orders results of equal number as it likes (it
is not stable): when every comparison succeeds, the slice afterwards holds the
same results in ascending order of `less`. -/
def SortsByNumber
    (sortSlice : List matchedTemplateOutput → Option (List matchedTemplateOutput)) : Prop :=
  ∀ xs : List matchedTemplateOutput,
    (∀ r ∈ xs, (extractImageNumber r.imagePath).isSome = true) →
    ∃ s, sortSlice xs = some s ∧ s.Perm xs ∧ s.Pairwise itemLE

/-! ## The selection loop (lines 167-198) -/

/-- The variables of the selection loop, and two history fields. -/
structure LoopState where
  minPoint : Point
  avgDeltaY : Float64
  selectedImages : List String
  /-- History: the results whose path was appended to `selectedImages`. -/
  selectedItems : List matchedTemplateOutput
  /-- History: the arguments of the calls to the confirmation step. -/
  confirmCalls : List (String × String)
deriving DecidableEq

/-- The value `deltaYThreshold := 0.01 * float64(h)`. -/
def deltaYThreshold (h : Int) : Float64 := Float64.mul Float64.c001 (Float64.ofInt h)

/-- The value `templateXThreshold := 0.02 * float64(w)`. -/
def templateXThreshold (w : Int) : Float64 := Float64.mul Float64.c002 (Float64.ofInt w)

/-- State before the first result: `minPoint := image.Point{0, h}`,
`avgDeltaY := 0.`, `selectedImages := []string{}`. -/
def initState (h : Int) : LoopState :=
  { minPoint := ⟨0, h⟩, avgDeltaY := Float64.zero, selectedImages := [],
    selectedItems := [], confirmCalls := [] }

/-- Lines 188-194: the update of `avgDeltaY`, `minPoint` and `selectedImages`
for an accepted result. -/
def accept (s : LoopState) (item : matchedTemplateOutput) (deltaY : Float64) : LoopState :=
  { s with
    avgDeltaY :=
      if s.avgDeltaY.isZero = true then deltaY
      else Float64.half (Float64.add s.avgDeltaY deltaY)
    minPoint := item.rect.Min
    selectedImages := s.selectedImages ++ [item.imagePath]
    selectedItems := s.selectedItems ++ [item] }

/-- The test of line 178 on horizontal drift:
`math.Abs(float64(minPoint.X-matchRect.Min.X)) < templateXThreshold`. -/
def driftBelow (w : Int) (minPoint candidate : Point) : Bool :=
  Float64.lt (Float64.abs (Float64.ofInt (minPoint.X - candidate.X))) (templateXThreshold w)

/-- The value `deltaY := float64(minPoint.Y) - float64(matchRect.Min.Y)` of
line 179. -/
def deltaYOf (s : LoopState) (item : matchedTemplateOutput) : Float64 :=
  Float64.sub (Float64.ofInt s.minPoint.Y) (Float64.ofInt item.rect.Min.Y)

/-- The test `deltaY > avgDeltaY+deltaYThreshold` of line 181. -/
def aboveAverage (h : Int) (s : LoopState) (item : matchedTemplateOutput) : Bool :=
  Float64.lt (Float64.add s.avgDeltaY (deltaYThreshold h)) (deltaYOf s item)

/-- One pass through the body of the loop (lines 177-195). -/
def step (confirm : String → String → Bool) (w h : Int) (s : LoopState)
    (item : matchedTemplateOutput) : LoopState :=
  let matchRect := item.rect
  if matchRect.Min.Y < s.minPoint.Y ∧
      (s.minPoint.X = 0 ∨ driftBelow w s.minPoint matchRect.Min = true) then
    let deltaY := deltaYOf s item
    if hask : 0 < s.selectedImages.length ∧ aboveAverage h s item = true then
      let last := s.selectedImages.getLast (List.ne_nil_of_length_pos hask.1)
      let asked := { s with confirmCalls := s.confirmCalls ++ [(last, item.imagePath)] }
      if confirm last item.imagePath = false then
        asked
      else
        accept asked item deltaY
    else
      accept s item deltaY
  else
    s

/-- The loop `for _, item := range results` from a given state. -/
def runLoop (confirm : String → String → Bool) (w h : Int) (s : LoopState)
    (results : List matchedTemplateOutput) : LoopState :=
  results.foldl (step confirm w h) s

/-- The selection loop on results that are already sorted. -/
def selectionLoop (confirm : String → String → Bool) (w h : Int)
    (sorted : List matchedTemplateOutput) : LoopState :=
  runLoop confirm w h (initState h) sorted

/-- Lines 163-198 of `filterImages`: the sort and the selection loop on the
collected results; the value is the returned `selectedImages`. `sortSlice` is
the library call `sort.Slice(results, less)`. -/
def selectImages (sortSlice : List matchedTemplateOutput → Option (List matchedTemplateOutput))
    (confirm : String → String → Bool) (w h : Int)
    (results : List matchedTemplateOutput) : Option (List String) :=
  match sortSlice results with
  | none => none
  | some sorted => some (selectionLoop confirm w h sorted).selectedImages

/-! ## The set-up of `filterImages` (lines 115-120) -/

/-- The function `extractTemplate`: the region the operator selects. -/
def extractTemplate (selectROI : Mat → Rectangle) (img : Mat) : Mat :=
  img.Region (selectROI img)

/-- Lines 115-120: `w` and `h` are read from `template` while it still holds
the resized first frame; only then is `template` cut down to the selected
region. The value is `(w, h, template)`. -/
def filterSetup (selectROI : Mat → Rectangle) (first : Mat) : Int × Int × Mat :=
  let template := first
  let w := template.Cols
  let h := template.Rows
  let template := extractTemplate selectROI template
  (w, h, template)

/-- The function `filterImages`. `readResized` is `gocv.IMRead` followed by
`resize`, `collect` is the matching stage (lines 122-161) with whatever order
its results arrive in, `sortSlice` is the library call of line 163;
`paths[0]` on an empty slice panics (`none`). -/
def filterImages (sortSlice : List matchedTemplateOutput → Option (List matchedTemplateOutput))
    (confirm : String → String → Bool) (selectROI : Mat → Rectangle)
    (readResized : String → Mat) (collect : Mat → List String → List matchedTemplateOutput)
    (paths : List String) : Option (List String) :=
  match paths with
  | [] => none
  | p0 :: _ =>
    match filterSetup selectROI (readResized p0) with
    | (w, h, template) => selectImages sortSlice confirm w h (collect template paths)

/-! ## The matching stage (lines 122-161) as interleaved goroutines -/

/-- Where a worker goroutine (lines 136-146) stands. -/
inductive WorkerPc where
  /-- Spawned, `wg.Add(1)` not yet run. -/
  | spawned
  /-- At the head of `for imagePath := range inCh`. -/
  | receiving
  /-- Holding a path, about to run `outCh <- out`. -/
  | sending (imagePath : String)
  /-- Left the loop and ran the deferred `wg.Done()`. -/
  | finished
deriving DecidableEq, Repr

/-- Where the goroutine of lines 149-152 stands. -/
inductive CloserPc where
  /-- In `wg.Wait()`. -/
  | waiting
  /-- Past `wg.Wait()`, about to run `close(outCh)`. -/
  | closing
  /-- Returned. -/
  | finished
deriving DecidableEq, Repr

/-- The shared state of the matching stage. Both channels are buffered with
room for every path, so a send never blocks. -/
structure Pipeline where
  /-- Paths the goroutine of lines 125-130 has still to send. -/
  toSend : List String
  inCh : List String
  inClosed : Bool
  /-- The counter of the `sync.WaitGroup`. -/
  wg : Nat
  workers : List WorkerPc
  closer : CloserPc
  outCh : List matchedTemplateOutput
  outClosed : Bool
  /-- The slice `results` of the main goroutine. -/
  results : List matchedTemplateOutput
  /-- The loop `for item := range outCh` of line 157 has ended. -/
  collected : Bool
  /-- A worker ran a send on the closed `outCh`. -/
  panicked : Bool
deriving DecidableEq, Repr

/-- The goroutine that takes the next atomic step. -/
inductive Action where
  | produce
  | worker (i : Nat)
  | closer
  | collect
deriving DecidableEq, Repr

/-- State after line 152: all goroutines are spawned, none has run yet. -/
def Pipeline.start (numCPU : Nat) (paths : List String) : Pipeline :=
  { toSend := paths, inCh := [], inClosed := false, wg := 0,
    workers := List.replicate numCPU WorkerPc.spawned, closer := CloserPc.waiting,
    outCh := [], outClosed := false, results := [], collected := false, panicked := false }

/-- One atomic step of the chosen goroutine, `none` when that goroutine is
blocked or has returned. `matchRect` is `matchTemplateFromImagePath`. -/
def Pipeline.step (matchRect : String → Rectangle) (s : Pipeline) : Action → Option Pipeline
  | Action.produce =>
    match s.toSend with
    | p :: rest => some { s with toSend := rest, inCh := s.inCh ++ [p] }
    | [] => if s.inClosed then none else some { s with inClosed := true }
  | Action.worker i =>
    match s.workers.get? i with
    | none => none
    | some WorkerPc.spawned =>
      some { s with wg := s.wg + 1, workers := s.workers.set i WorkerPc.receiving }
    | some WorkerPc.receiving =>
      match s.inCh with
      | p :: rest => some { s with inCh := rest, workers := s.workers.set i (WorkerPc.sending p) }
      | [] =>
        if s.inClosed then
          some { s with wg := s.wg - 1, workers := s.workers.set i WorkerPc.finished }
        else none
    | some (WorkerPc.sending p) =>
      if s.outClosed then
        some { s with panicked := true, workers := s.workers.set i WorkerPc.finished }
      else
        some { s with outCh := s.outCh ++ [⟨matchRect p, p⟩],
                      workers := s.workers.set i WorkerPc.receiving }
    | some WorkerPc.finished => none
  | Action.closer =>
    match s.closer with
    | CloserPc.waiting => if s.wg = 0 then some { s with closer := CloserPc.closing } else none
    | CloserPc.closing => some { s with closer := CloserPc.finished, outClosed := true }
    | CloserPc.finished => none
  | Action.collect =>
    if s.collected then none
    else
      match s.outCh with
      | r :: rest => some { s with outCh := rest, results := s.results ++ [r] }
      | [] => if s.outClosed then some { s with collected := true } else none

/-- The state a schedule leads to, `none` when it asks a blocked goroutine to
move. -/
def Pipeline.run (matchRect : String → Rectangle) (s : Pipeline) :
    List Action → Option Pipeline
  | [] => some s
  | a :: rest =>
    match Pipeline.step matchRect s a with
    | none => none
    | some t => Pipeline.run matchRect t rest

/-! ## Properties of states, passes and paths used in the statements -/

/-- Strict upward progress between two results. -/
def yDecreases (a b : matchedTemplateOutput) : Prop := b.rect.Min.Y < a.rect.Min.Y

/-- A pass that leaves the three loop variables as they were. -/
def Unchanged (s t : LoopState) : Prop :=
  t.minPoint = s.minPoint ∧ t.avgDeltaY = s.avgDeltaY ∧
    t.selectedImages = s.selectedImages ∧ t.selectedItems = s.selectedItems

/-- Both tests of line 178 hold of `item` in state `s`. -/
def gatesPass (w : Int) (s : LoopState) (item : matchedTemplateOutput) : Prop :=
  item.rect.Min.Y < s.minPoint.Y ∧
    (s.minPoint.X = 0 ∨ driftBelow w s.minPoint item.rect.Min = true)

/-- A pass that accepts `item`: both tests of line 178 held and the three loop
variables were updated as in lines 188-194. -/
def Accepted (w : Int) (s : LoopState) (item : matchedTemplateOutput) (t : LoopState) : Prop :=
  gatesPass w s item ∧
    t.minPoint = item.rect.Min ∧
    t.avgDeltaY =
      (if s.avgDeltaY.isZero = true then deltaYOf s item
       else Float64.half (Float64.add s.avgDeltaY (deltaYOf s item))) ∧
    t.selectedImages = s.selectedImages ++ [item.imagePath] ∧
    t.selectedItems = s.selectedItems ++ [item]

/-- What holds of the loop state before and after every result, for the
height `h` the loop was started with. -/
structure Inv (h : Int) (s : LoopState) : Prop where
  paths : s.selectedImages = s.selectedItems.map matchedTemplateOutput.imagePath
  fresh : s.selectedItems = [] → s.minPoint = ⟨0, h⟩
  last : ∀ a, s.selectedItems.getLast? = some a → s.minPoint = a.rect.Min
  progress : s.selectedItems.Chain' yDecreases
  first : ∀ a, s.selectedItems.head? = some a → a.rect.Min.Y < h

/-- A coordinate that `float64` holds exactly; every pixel coordinate is one,
`gocv` handing them over as 32-bit integers. -/
def exactInFloat64 (z : Int) : Prop := |z| < 2 ^ 53

/-- What holds of `avgDeltaY` before and after every result whose coordinates
are exact in `float64`. -/
structure AvgInv (s : LoopState) : Prop where
  zero : s.selectedItems = [] → s.avgDeltaY.mant = 0
  pos : s.selectedItems ≠ [] → 0 < s.avgDeltaY.mant
  exact : exactInFloat64 s.minPoint.Y

/-- The drift test as the loop applies it between a frame and the next one
accepted: it is passed over when the earlier frame matched at `X = 0`. -/
def driftOrZero (w : Int) (a b : matchedTemplateOutput) : Prop :=
  a.rect.Min.X = 0 ∨ driftBelow w a.rect.Min b.rect.Min = true

/-- The confirmation step is asked about `item` in state `s` and rejects it. -/
def ConfirmRejects (confirm : String → String → Bool) (w h : Int) (s : LoopState)
    (item : matchedTemplateOutput) : Prop :=
  gatesPass w s item ∧
    ∃ last, s.selectedImages.getLast? = some last ∧
      aboveAverage h s item = true ∧
      confirm last item.imagePath = false

/-- The three-frame scenario: match rectangles at `Y = 100, 80, 60` with the
same `Min.X`. -/
def threeFrames (x : Int) (m1 m2 m3 : Point) (p1 p2 p3 : String) :
    List matchedTemplateOutput :=
  [⟨⟨⟨x, 100⟩, m1⟩, p1⟩, ⟨⟨⟨x, 80⟩, m2⟩, p2⟩, ⟨⟨⟨x, 60⟩, m3⟩, p3⟩]

/-- In the words of the specification: the text has a decimal digit right
before its final extension, the part after its last dot. -/
def digitBeforeExtension (text : List Char) : Prop :=
  ∃ (stem : List Char) (d : Char) (ext : List Char),
    text = stem ++ d :: '.' :: ext ∧ isDigit d = true ∧ '.' ∉ ext

/-- In the words of the specification: `digits` is the maximal run of digits
right before the final extension `ext` of the text `stem ++ digits ++ "." ++ ext`. -/
def maximalRunBeforeExtension (stem digits ext : List Char) : Prop :=
  digits ≠ [] ∧ (∀ c ∈ digits, isDigit c = true) ∧
    (∀ c, stem.getLast? = some c → isDigit c = false) ∧ '.' ∉ ext

set_option maxRecDepth 100000

/-! ## Facts about `float64` arithmetic -/

theorem bitLengthAux_zero (fuel : Nat) : bitLengthAux fuel 0 = 0 := by
  cases fuel <;> simp [bitLengthAux]

theorem bitLengthAux_spec (fuel n : Nat) (hle : n ≤ fuel) (hn : n ≠ 0) :
    ∃ b, bitLengthAux fuel n = b + 1 ∧ 2 ^ b ≤ n := by
  induction fuel generalizing n with
  | zero => exact absurd (Nat.le_zero.mp hle) hn
  | succ fuel ih =>
    refine ⟨bitLengthAux fuel (n / 2), by simp [bitLengthAux, hn], ?_⟩
    by_cases h2 : n / 2 = 0
    · rw [h2, bitLengthAux_zero]
      simpa using Nat.pos_of_ne_zero hn
    · obtain ⟨b, hb, hpow⟩ := ih (n / 2) (by omega) h2
      rw [hb, pow_succ]
      omega

theorem bitLength_spec (n : Nat) (hn : n ≠ 0) : ∃ b, bitLength n = b + 1 ∧ 2 ^ b ≤ n :=
  bitLengthAux_spec n n (le_refl n) hn

theorem bitLength_le_53 (n : Nat) (hn : n < 2 ^ 53) : bitLength n ≤ 53 := by
  by_cases h0 : n = 0
  · subst h0
    simp [bitLength, bitLengthAux]
  · obtain ⟨b, hb, hpow⟩ := bitLength_spec n h0
    rw [hb]
    by_contra hgt
    have h53 : 53 ≤ b := by omega
    have : 2 ^ 53 ≤ 2 ^ b := Nat.pow_le_pow_right (by decide) h53
    omega

/-- Rounding keeps a positive value positive. -/
theorem round_mant_pos (M E : Int) (hM : 0 < M) : 0 < (Float64.round M E).mant := by
  have hne : M ≠ 0 := ne_of_gt hM
  have hsign : M.sign = 1 := Int.sign_eq_one_of_pos hM
  unfold Float64.round
  rw [if_neg hne]
  by_cases hlen : bitLength M.natAbs ≤ 53
  · rw [if_pos hlen]
    exact mul_pos hM (pow_pos (by decide) _)
  · rw [if_neg hlen]
    obtain ⟨b, hb, hpow⟩ := bitLength_spec M.natAbs (Int.natAbs_ne_zero.mpr hne)
    have hq : 0 < M.natAbs / 2 ^ (bitLength M.natAbs - 53) := by
      apply Nat.div_pos _ (pow_pos (by decide) _)
      refine le_trans (Nat.pow_le_pow_right (by decide) ?_) hpow
      omega
    simp only [hsign, one_mul]
    split_ifs
    · dsimp only; positivity
    · dsimp only; positivity
    · dsimp only; positivity
    · dsimp only; exact_mod_cast hq

theorem mantAt_pos (x : Float64) (e : Int) (hx : 0 < x.mant) : 0 < x.mantAt e :=
  mul_pos hx (pow_pos (by decide) _)

theorem add_mant_pos (x y : Float64) (hx : 0 < x.mant) (hy : 0 < y.mant) :
    0 < (Float64.add x y).mant :=
  round_mant_pos _ _ (add_pos (mantAt_pos x _ hx) (mantAt_pos y _ hy))

theorem mul_mant_pos (x y : Float64) (hx : 0 < x.mant) (hy : 0 < y.mant) :
    0 < (Float64.mul x y).mant :=
  round_mant_pos _ _ (mul_pos hx hy)

theorem half_mant (x : Float64) : (Float64.half x).mant = x.mant := by
  unfold Float64.half
  split_ifs <;> rfl

theorem toRat_pos_iff (x : Float64) : 0 < x.toRat ↔ 0 < x.mant := by
  unfold Float64.toRat
  have h2 : (0 : ℚ) < (2 : ℚ) ^ x.exp := zpow_pos (by norm_num) _
  rw [mul_pos_iff_of_pos_right h2]
  exact Int.cast_pos

/-- The mantissa of `x` at an exponent `e` below its own stands for the same
number. -/
theorem mantAt_value (x : Float64) (e : Int) (he : e ≤ x.exp) :
    ((x.mantAt e : Int) : ℚ) * (2 : ℚ) ^ e = x.toRat := by
  unfold Float64.mantAt Float64.toRat
  have hnn : 0 ≤ x.exp - e := by omega
  have hpow : ((2 : ℚ) ^ (x.exp - e).toNat) = (2 : ℚ) ^ (x.exp - e) := by
    rw [← zpow_natCast, Int.toNat_of_nonneg hnn]
  push_cast
  rw [hpow, mul_assoc, ← zpow_add₀ (by norm_num : (2 : ℚ) ≠ 0)]
  congr 2
  omega

/-- The conversion `float64(z)` is exact on integers below `2 ^ 53`. -/
theorem ofInt_toRat (z : Int) (hz : exactInFloat64 z) : (Float64.ofInt z).toRat = z := by
  unfold exactInFloat64 at hz
  unfold Float64.ofInt Float64.round
  by_cases h0 : z = 0
  · subst h0
    simp [Float64.toRat]
  · rw [if_neg h0]
    have hlen : bitLength z.natAbs ≤ 53 := by
      apply bitLength_le_53
      have : (z.natAbs : Int) < 2 ^ 53 := by rw [Int.natCast_natAbs]; exact hz
      exact_mod_cast this
    rw [if_pos hlen]
    unfold Float64.toRat
    push_cast
    rw [zero_sub, zpow_neg, zpow_natCast, mul_assoc,
      mul_inv_cancel₀ (pow_ne_zero _ (by norm_num : (2 : ℚ) ≠ 0)), mul_one]

/-- On coordinates that are exact in `float64` a strictly lower candidate has
a positive `deltaY`. -/
theorem sub_ofInt_mant_pos (a b : Int) (ha : exactInFloat64 a) (hb : exactInFloat64 b)
    (hlt : b < a) : 0 < (Float64.sub (Float64.ofInt a) (Float64.ofInt b)).mant := by
  apply round_mant_pos
  have hx := mantAt_value (Float64.ofInt a)
    (min (Float64.ofInt a).exp (Float64.ofInt b).exp) (min_le_left _ _)
  have hy := mantAt_value (Float64.ofInt b)
    (min (Float64.ofInt a).exp (Float64.ofInt b).exp) (min_le_right _ _)
  rw [ofInt_toRat a ha] at hx
  rw [ofInt_toRat b hb] at hy
  have h2 : (0 : ℚ) < (2 : ℚ) ^ (min (Float64.ofInt a).exp (Float64.ofInt b).exp) :=
    zpow_pos (by norm_num) _
  have hab : (b : ℚ) < (a : ℚ) := by exact_mod_cast hlt
  have hq : (0 : ℚ) < (((Float64.ofInt a).mantAt
      (min (Float64.ofInt a).exp (Float64.ofInt b).exp) -
      (Float64.ofInt b).mantAt (min (Float64.ofInt a).exp (Float64.ofInt b).exp) : Int) : ℚ) := by
    push_cast
    have := sub_pos.mpr hab
    rw [← hx, ← hy, ← sub_mul] at this
    exact (mul_pos_iff_of_pos_right h2).mp this
  exact_mod_cast hq

/-- The constants are the `float64` values nearest to `0.01` and `0.02`: they
are within half a unit in the last place. -/
theorem constants_nearest :
    |Float64.c001.toRat - 1 / 100| ≤ (2 : ℚ) ^ (-60 : Int) ∧
    |Float64.c002.toRat - 2 / 100| ≤ (2 : ℚ) ^ (-59 : Int) ∧
    2 ^ 52 ≤ Float64.c001.mant ∧ Float64.c001.mant < 2 ^ 53 := by
  refine ⟨?_, ?_, by decide, by decide⟩
  · norm_num [Float64.c001, Float64.toRat, abs_le]
  · norm_num [Float64.c002, Float64.toRat, abs_le]

/-- With a positive width the threshold on drift is positive, and no drift at
all is below it. -/
theorem driftBelow_self (w x y1 y2 : Int) (hw : 0 < w) :
    driftBelow w ⟨x, y1⟩ ⟨x, y2⟩ = true := by
  have hthr : 0 < (templateXThreshold w).mant :=
    mul_mant_pos _ _ (by decide) (round_mant_pos w 0 hw)
  unfold driftBelow Float64.lt
  simp only [sub_self]
  have h0 : Float64.abs (Float64.ofInt 0) = ⟨0, 0⟩ := by decide
  rw [h0]
  simp only [decide_eq_true_eq]
  have : (⟨0, 0⟩ : Float64).mantAt (min 0 (templateXThreshold w).exp) = 0 := by
    simp [Float64.mantAt]
  show (⟨0, 0⟩ : Float64).mantAt (min 0 (templateXThreshold w).exp) < _
  rw [this]
  exact mantAt_pos _ _ hthr

/-! ## Facts about one pass of the loop -/

theorem step_cases (confirm : String → String → Bool) (w h : Int) (s : LoopState)
    (item : matchedTemplateOutput) :
    Unchanged s (step confirm w h s item) ∨ Accepted w s item (step confirm w h s item) := by
  unfold step
  by_cases hg : item.rect.Min.Y < s.minPoint.Y ∧
      (s.minPoint.X = 0 ∨ driftBelow w s.minPoint item.rect.Min = true)
  · simp only [hg, and_self, if_true]
    by_cases hask : 0 < s.selectedImages.length ∧ aboveAverage h s item = true
    · simp only [hask, and_self, dite_true]
      by_cases hc : confirm (s.selectedImages.getLast (List.ne_nil_of_length_pos hask.1))
          item.imagePath = false
      · left
        simp [hc, Unchanged]
      · right
        simp only [hc, if_false]
        exact ⟨hg, rfl, rfl, rfl, rfl⟩
    · right
      simp only [hask, dite_false]
      exact ⟨hg, rfl, rfl, rfl, rfl⟩
  · left
    rw [if_neg hg]
    exact ⟨rfl, rfl, rfl, rfl⟩

theorem step_eq_accept (confirm : String → String → Bool) (w h : Int) (s : LoopState)
    (item : matchedTemplateOutput) (hg : gatesPass w s item)
    (hask : ¬ (0 < s.selectedImages.length ∧ aboveAverage h s item = true)) :
    step confirm w h s item = accept s item (deltaYOf s item) := by
  unfold gatesPass at hg
  unfold step
  dsimp only
  rw [if_pos hg, dif_neg hask]

theorem runLoop_nil (confirm : String → String → Bool) (w h : Int) (s : LoopState) :
    runLoop confirm w h s [] = s := rfl

theorem runLoop_cons (confirm : String → String → Bool) (w h : Int) (s : LoopState)
    (x : matchedTemplateOutput) (xs : List matchedTemplateOutput) :
    runLoop confirm w h s (x :: xs) = runLoop confirm w h (step confirm w h s x) xs := rfl

theorem runLoop_append (confirm : String → String → Bool) (w h : Int) (s : LoopState)
    (xs ys : List matchedTemplateOutput) :
    runLoop confirm w h s (xs ++ ys) = runLoop confirm w h (runLoop confirm w h s xs) ys := by
  simp [runLoop, List.foldl_append]

/-- The results accepted during a run extend the earlier ones by a sublist of
the input. -/
theorem runLoop_selectedItems (confirm : String → String → Bool) (w h : Int)
    (xs : List matchedTemplateOutput) (s : LoopState) :
    ∃ t, t.Sublist xs ∧
      (runLoop confirm w h s xs).selectedItems = s.selectedItems ++ t := by
  induction xs generalizing s with
  | nil => exact ⟨[], List.Sublist.refl _, by simp [runLoop_nil]⟩
  | cons x xs ih =>
    obtain ⟨t, ht, heq⟩ := ih (step confirm w h s x)
    rw [runLoop_cons, heq]
    rcases step_cases confirm w h s x with hu | ha
    · exact ⟨t, List.Sublist.cons x ht, by rw [hu.2.2.2]⟩
    · refine ⟨x :: t, List.Sublist.cons₂ x ht, ?_⟩
      rw [ha.2.2.2.2]
      simp

/-! ## The invariants of the loop -/

theorem inv_init (h : Int) : Inv h (initState h) := by
  constructor <;> simp [initState]

theorem inv_step (confirm : String → String → Bool) (w h : Int) (s : LoopState)
    (item : matchedTemplateOutput) (hs : Inv h s) : Inv h (step confirm w h s item) := by
  rcases step_cases confirm w h s item with hu | ha
  · obtain ⟨h1, _, h3, h4⟩ := hu
    constructor
    · rw [h3, h4]; exact hs.paths
    · rw [h4, h1]; exact hs.fresh
    · rw [h4, h1]; exact hs.last
    · rw [h4]; exact hs.progress
    · rw [h4]; exact hs.first
  · obtain ⟨⟨hy, _⟩, hmin, _, himg, hitems⟩ := ha
    constructor
    · rw [himg, hitems, hs.paths]; simp
    · intro hnil
      rw [hitems] at hnil
      simp at hnil
    · intro a ha
      rw [hitems] at ha
      simp at ha
      rw [hmin, ha]
    · rw [hitems, List.chain'_append]
      refine ⟨hs.progress, List.chain'_singleton _, ?_⟩
      intro a ha b hb
      simp at hb
      subst hb
      have := hs.last a ha
      unfold yDecreases
      rw [← this]
      exact hy
    · intro a ha
      rw [hitems] at ha
      cases hsi : s.selectedItems with
      | nil =>
        rw [hsi] at ha
        simp at ha
        subst ha
        have := hs.fresh hsi
        rw [this] at hy
        exact hy
      | cons b bs =>
        rw [hsi] at ha
        simp at ha
        subst ha
        exact hs.first b (by rw [hsi]; rfl)

theorem inv_runLoop (confirm : String → String → Bool) (w h : Int)
    (xs : List matchedTemplateOutput) (s : LoopState) (hs : Inv h s) :
    Inv h (runLoop confirm w h s xs) := by
  induction xs generalizing s with
  | nil => exact hs
  | cons x xs ih => exact ih _ (inv_step confirm w h s x hs)

theorem inv_selectionLoop (confirm : String → String → Bool) (w h : Int)
    (xs : List matchedTemplateOutput) : Inv h (selectionLoop confirm w h xs) :=
  inv_runLoop confirm w h xs _ (inv_init h)

theorem avgInv_init (h : Int) (hh : exactInFloat64 h) : AvgInv (initState h) :=
  ⟨fun _ => rfl, fun hne => absurd rfl hne, hh⟩

theorem avgInv_step (confirm : String → String → Bool) (w h : Int) (s : LoopState)
    (item : matchedTemplateOutput) (hitem : exactInFloat64 item.rect.Min.Y) (hs : AvgInv s) :
    AvgInv (step confirm w h s item) := by
  rcases step_cases confirm w h s item with hu | ha
  · obtain ⟨h1, h2, _, h4⟩ := hu
    constructor
    · rw [h4, h2]; exact hs.zero
    · rw [h4, h2]; exact hs.pos
    · rw [h1]; exact hs.exact
  · obtain ⟨⟨hy, _⟩, hmin, havg, _, hitems⟩ := ha
    have hd : 0 < (deltaYOf s item).mant :=
      sub_ofInt_mant_pos _ _ hs.exact hitem hy
    constructor
    · intro hnil
      rw [hitems] at hnil
      simp at hnil
    · intro _
      rw [havg]
      by_cases h0 : s.avgDeltaY.mant = 0
      · have hz : s.avgDeltaY.isZero = true := by simp [Float64.isZero, h0]
        rw [if_pos hz]
        exact hd
      · have hz : ¬ s.avgDeltaY.isZero = true := by simp [Float64.isZero, h0]
        rw [if_neg hz, half_mant]
        have hne : s.selectedItems ≠ [] := fun hnil => h0 (hs.zero hnil)
        exact add_mant_pos _ _ (hs.pos hne) hd
    · rw [hmin]; exact hitem

theorem avgInv_runLoop (confirm : String → String → Bool) (w h : Int)
    (xs : List matchedTemplateOutput) (s : LoopState)
    (hxs : ∀ r ∈ xs, exactInFloat64 r.rect.Min.Y) (hs : AvgInv s) :
    AvgInv (runLoop confirm w h s xs) := by
  induction xs generalizing s with
  | nil => exact hs
  | cons x xs ih =>
    exact ih _ (fun r hr => hxs r (List.mem_cons_of_mem _ hr))
      (avgInv_step confirm w h s x (hxs x (List.mem_cons_self _ _)) hs)

/-! ## The sort -/

theorem numberLE_trans {p q r : String} (hpq : numberLE p q) (hqr : numberLE q r) :
    numberLE p r := by
  obtain ⟨x, y, hx, hy, hxy⟩ := hpq
  obtain ⟨y2, z, hy2, hz, hyz⟩ := hqr
  rw [hy] at hy2
  cases hy2
  exact ⟨x, z, hx, hz, le_trans hxy hyz⟩

theorem insertSorted_spec (x : matchedTemplateOutput)
    (hx : (extractImageNumber x.imagePath).isSome = true) (ys : List matchedTemplateOutput)
    (hys : ∀ y ∈ ys, (extractImageNumber y.imagePath).isSome = true) :
    ∃ r, insertSorted x ys = some r ∧ r.Perm (x :: ys) ∧
      (ys.Pairwise itemLE → r.Pairwise itemLE) := by
  obtain ⟨kx, hkx⟩ := Option.isSome_iff_exists.mp hx
  induction ys with
  | nil =>
    refine ⟨[x], rfl, List.Perm.refl _, fun _ => ?_⟩
    simp
  | cons y ys ih =>
    obtain ⟨ky, hky⟩ := Option.isSome_iff_exists.mp (hys y (List.mem_cons_self _ _))
    obtain ⟨r, hr, hperm, hpw⟩ := ih (fun z hz => hys z (List.mem_cons_of_mem _ hz))
    by_cases hlt : ky < kx
    · refine ⟨y :: r, ?_, ?_, ?_⟩
      · simp [insertSorted, less, hkx, hky, hlt, hr]
      · exact (List.Perm.cons y hperm).trans (List.Perm.swap x y ys)
      · intro hp
        rw [List.pairwise_cons] at hp
        rw [List.pairwise_cons]
        refine ⟨?_, hpw hp.2⟩
        intro a ha
        rcases List.mem_cons.mp (hperm.mem_iff.mp ha) with rfl | hmem
        · exact ⟨ky, kx, hky, hkx, le_of_lt hlt⟩
        · exact hp.1 a hmem
    · refine ⟨x :: y :: ys, ?_, List.Perm.refl _, ?_⟩
      · simp [insertSorted, less, hkx, hky, hlt]
      · intro hp
        have hxy : itemLE x y := ⟨kx, ky, hkx, hky, not_lt.mp hlt⟩
        rw [List.pairwise_cons]
        refine ⟨?_, hp⟩
        intro a ha
        rcases List.mem_cons.mp ha with rfl | hmem
        · exact hxy
        · exact numberLE_trans hxy ((List.pairwise_cons.mp hp).1 a hmem)

/-- Insertion sort is one routine that sorts by sequence number. -/
theorem insertionSort_sorts : SortsByNumber insertionSort := by
  intro xs hxs
  induction xs with
  | nil => exact ⟨[], rfl, List.Perm.refl _, List.Pairwise.nil⟩
  | cons x xs ih =>
    obtain ⟨s, hs, hperm, hpw⟩ := ih (fun z hz => hxs z (List.mem_cons_of_mem _ hz))
    obtain ⟨r, hr, hrperm, hrpw⟩ := insertSorted_spec x (hxs x (List.mem_cons_self _ _)) s
      (fun z hz => hxs z (List.mem_cons_of_mem _ (hperm.mem_iff.mp hz)))
    refine ⟨r, ?_, hrperm.trans (List.Perm.cons x hperm), hrpw hpw⟩
    simp [insertionSort, hs, hr]

/-- On any list in ascending order of sequence number the loop returns a
subsequence of the paths, in ascending order again. -/
theorem selectionLoop_sublist (confirm : String → String → Bool) (w h : Int)
    (sorted : List matchedTemplateOutput) :
    (selectionLoop confirm w h sorted).selectedItems.Sublist sorted ∧
    (selectionLoop confirm w h sorted).selectedImages.Sublist
      (sorted.map matchedTemplateOutput.imagePath) ∧
    (sorted.Pairwise itemLE →
      (selectionLoop confirm w h sorted).selectedImages.Pairwise numberLE) := by
  obtain ⟨t, ht, heq⟩ := runLoop_selectedItems confirm w h sorted (initState h)
  have hitems : (selectionLoop confirm w h sorted).selectedItems = t := by
    simpa [selectionLoop, initState] using heq
  have hpaths := (inv_selectionLoop confirm w h sorted).paths
  refine ⟨hitems ▸ ht, ?_, ?_⟩
  · rw [hpaths, hitems]
    exact ht.map _
  · intro hp
    rw [hpaths, hitems, List.pairwise_map]
    exact hp.sublist ht

/-! ## Claims on the selection -/

/-- C1: when every path carries a sequence number, the sort returns the
results in ascending order of `extractImageNumber` (a permutation of them), and
`selectImages` returns a subsequence of the paths in that order, of
non-decreasing sequence number, whatever the confirmation step answers and
however the library sort orders results of equal number; the same holds of the
loop on any other ascending arrangement of the results. -/
theorem selectImages_subsequence_of_sorted
    (sortSlice : List matchedTemplateOutput → Option (List matchedTemplateOutput))
    (hsort : SortsByNumber sortSlice)
    (confirm : String → String → Bool) (w h : Int)
    (results : List matchedTemplateOutput)
    (hnum : ∀ r ∈ results, (extractImageNumber r.imagePath).isSome = true) :
    (∃ sorted out, sortSlice results = some sorted ∧ sorted.Perm results ∧
      sorted.Pairwise itemLE ∧
      selectImages sortSlice confirm w h results = some out ∧
      out.Sublist (sorted.map matchedTemplateOutput.imagePath) ∧
      out.Pairwise numberLE) ∧
    (∀ arranged : List matchedTemplateOutput, arranged.Perm results →
      arranged.Pairwise itemLE →
      (selectionLoop confirm w h arranged).selectedImages.Sublist
        (arranged.map matchedTemplateOutput.imagePath) ∧
      (selectionLoop confirm w h arranged).selectedImages.Pairwise numberLE) := by
  constructor
  · obtain ⟨sorted, hs, hperm, hpw⟩ := hsort results hnum
    obtain ⟨_, hsub, hle⟩ := selectionLoop_sublist confirm w h sorted
    refine ⟨sorted, _, hs, hperm, hpw, ?_, hsub, hle hpw⟩
    simp [selectImages, hs]
  · intro arranged _ hpw
    obtain ⟨_, hsub, hle⟩ := selectionLoop_sublist confirm w h arranged
    exact ⟨hsub, hle hpw⟩

/-- Witness of C1: `img10.jpg` arrives before `img9.jpg`; the sort puts
`img9.jpg` first and both frames are selected in that order. -/
theorem selectImages_subsequence_of_sorted_witness :
    (∃ sorted out,
      insertionSort [⟨⟨⟨5, 80⟩, ⟨15, 90⟩⟩, "img10.jpg"⟩, ⟨⟨⟨5, 100⟩, ⟨15, 110⟩⟩, "img9.jpg"⟩]
        = some sorted ∧
      sorted.Perm [⟨⟨⟨5, 80⟩, ⟨15, 90⟩⟩, "img10.jpg"⟩, ⟨⟨⟨5, 100⟩, ⟨15, 110⟩⟩, "img9.jpg"⟩] ∧
      sorted.Pairwise itemLE ∧
      selectImages insertionSort (fun _ _ => true) 100 500
        [⟨⟨⟨5, 80⟩, ⟨15, 90⟩⟩, "img10.jpg"⟩, ⟨⟨⟨5, 100⟩, ⟨15, 110⟩⟩, "img9.jpg"⟩] = some out ∧
      out.Sublist (sorted.map matchedTemplateOutput.imagePath) ∧
      out.Pairwise numberLE) ∧
    insertionSort [⟨⟨⟨5, 80⟩, ⟨15, 90⟩⟩, "img10.jpg"⟩, ⟨⟨⟨5, 100⟩, ⟨15, 110⟩⟩, "img9.jpg"⟩]
      = some [⟨⟨⟨5, 100⟩, ⟨15, 110⟩⟩, "img9.jpg"⟩, ⟨⟨⟨5, 80⟩, ⟨15, 90⟩⟩, "img10.jpg"⟩] ∧
    selectImages insertionSort (fun _ _ => true) 100 500
        [⟨⟨⟨5, 80⟩, ⟨15, 90⟩⟩, "img10.jpg"⟩, ⟨⟨⟨5, 100⟩, ⟨15, 110⟩⟩, "img9.jpg"⟩]
      = some ["img9.jpg", "img10.jpg"] :=
  ⟨(selectImages_subsequence_of_sorted insertionSort insertionSort_sorts (fun _ _ => true)
      100 500 [⟨⟨⟨5, 80⟩, ⟨15, 90⟩⟩, "img10.jpg"⟩, ⟨⟨⟨5, 100⟩, ⟨15, 110⟩⟩, "img9.jpg"⟩]
      (by decide)).1, by decide, by decide⟩

/-- C2: in the output of the selection loop every frame lies strictly above
the frame before it (`Min.Y` strictly smaller), the first frame has
`Min.Y < h`, and in every pass `minPoint.Y` does not increase and strictly
decreases when the pass appends a frame. -/
theorem selectionLoop_strict_progress (confirm : String → String → Bool) (w h : Int)
    (sorted : List matchedTemplateOutput) :
    (selectionLoop confirm w h sorted).selectedImages =
      (selectionLoop confirm w h sorted).selectedItems.map matchedTemplateOutput.imagePath ∧
    (selectionLoop confirm w h sorted).selectedItems.Sublist sorted ∧
    (selectionLoop confirm w h sorted).selectedItems.Chain' yDecreases ∧
    (∀ a, (selectionLoop confirm w h sorted).selectedItems.head? = some a → a.rect.Min.Y < h) ∧
    (∀ (s : LoopState) (item : matchedTemplateOutput),
      (step confirm w h s item).minPoint.Y ≤ s.minPoint.Y ∧
      ((step confirm w h s item).selectedImages ≠ s.selectedImages →
        (step confirm w h s item).minPoint.Y < s.minPoint.Y)) := by
  have hinv := inv_selectionLoop confirm w h sorted
  refine ⟨hinv.paths, (selectionLoop_sublist confirm w h sorted).1, hinv.progress,
    hinv.first, ?_⟩
  intro s item
  rcases step_cases confirm w h s item with hu | ha
  · exact ⟨le_of_eq (congrArg Point.Y hu.1), fun hne => absurd hu.2.2.1 hne⟩
  · have hlt : (step confirm w h s item).minPoint.Y < s.minPoint.Y := by
      rw [ha.2.1]
      exact ha.1.1
    exact ⟨le_of_lt hlt, fun _ => hlt⟩

/-- What the loop does guarantee on horizontal drift: two adjacent output
frames are within the threshold unless the earlier one matched at `X = 0`. -/
theorem selectionLoop_drift (confirm : String → String → Bool) (w h : Int)
    (sorted : List matchedTemplateOutput) :
    (selectionLoop confirm w h sorted).selectedItems.Chain' (driftOrZero w) := by
  have key : ∀ (xs : List matchedTemplateOutput) (s : LoopState), Inv h s →
      s.selectedItems.Chain' (driftOrZero w) →
      (runLoop confirm w h s xs).selectedItems.Chain' (driftOrZero w) := by
    intro xs
    induction xs with
    | nil => intro s _ hc; exact hc
    | cons x xs ih =>
      intro s hs hc
      rw [runLoop_cons]
      refine ih _ (inv_step confirm w h s x hs) ?_
      rcases step_cases confirm w h s x with hu | ha
      · rw [hu.2.2.2]; exact hc
      · rw [ha.2.2.2.2, List.chain'_append]
        refine ⟨hc, List.chain'_singleton _, ?_⟩
        intro a hla b hb
        simp at hb
        subst hb
        have hmin := hs.last a hla
        unfold driftOrZero
        rw [← hmin]
        exact ha.1.2
  exact key sorted (initState h) (inv_init h) (by simp [initState])

/-- C3, evaluated where it fails: with `w = 100` (threshold `2`) and `h = 500`
the loop accepts `img1.jpg`, matched at `X = 0`, and then `img2.jpg`, matched
at `X = 50`, although `|50 - 0|` is not below the threshold: after a frame
matched at `X = 0` the test `minPoint.X == 0` lets every offset through. -/
theorem drift_gate_skipped_after_zero_match :
    (selectionLoop (fun _ _ => true) 100 500
      [⟨⟨⟨0, 100⟩, ⟨10, 110⟩⟩, "img1.jpg"⟩, ⟨⟨⟨50, 80⟩, ⟨60, 90⟩⟩, "img2.jpg"⟩]).selectedItems
      = [⟨⟨⟨0, 100⟩, ⟨10, 110⟩⟩, "img1.jpg"⟩, ⟨⟨⟨50, 80⟩, ⟨60, 90⟩⟩, "img2.jpg"⟩] ∧
    (selectionLoop (fun _ _ => true) 100 500
      [⟨⟨⟨0, 100⟩, ⟨10, 110⟩⟩, "img1.jpg"⟩, ⟨⟨⟨50, 80⟩, ⟨60, 90⟩⟩, "img2.jpg"⟩]).selectedImages
      = ["img1.jpg", "img2.jpg"] ∧
    templateXThreshold 100 = Float64.ofInt 2 ∧
    Float64.lt (Float64.abs (Float64.ofInt (0 - 50))) (templateXThreshold 100) = false ∧
    driftBelow 100 ⟨0, 100⟩ ⟨50, 80⟩ = false := by
  refine ⟨by decide, by decide, by decide, by decide, by decide⟩

/-- The calls made by one pass: one call, on the last selected path and the
path of the candidate, when the tests of line 178 hold, a frame is selected
already and `deltaY` is above `avgDeltaY + deltaYThreshold`; none otherwise. -/
theorem step_confirmCalls (confirm : String → String → Bool) (w h : Int) (s : LoopState)
    (item : matchedTemplateOutput) :
    (gatesPass w s item ∧ s.selectedImages ≠ [] ∧ aboveAverage h s item = true →
      ∃ last, s.selectedImages.getLast? = some last ∧
        (step confirm w h s item).confirmCalls = s.confirmCalls ++ [(last, item.imagePath)]) ∧
    (¬ (gatesPass w s item ∧ s.selectedImages ≠ [] ∧ aboveAverage h s item = true) →
      (step confirm w h s item).confirmCalls = s.confirmCalls) := by
  unfold gatesPass
  constructor
  · rintro ⟨hg, hne, hd⟩
    have hask : 0 < s.selectedImages.length ∧ aboveAverage h s item = true :=
      ⟨List.length_pos.mpr hne, hd⟩
    refine ⟨s.selectedImages.getLast hne, List.getLast?_eq_getLast _ hne, ?_⟩
    unfold step
    dsimp only
    rw [if_pos hg, dif_pos hask]
    by_cases hc : confirm (s.selectedImages.getLast hne) item.imagePath = false
    · rw [if_pos hc]
    · rw [if_neg hc]; rfl
  · intro hn
    unfold step
    dsimp only
    by_cases hg : item.rect.Min.Y < s.minPoint.Y ∧
        (s.minPoint.X = 0 ∨ driftBelow w s.minPoint item.rect.Min = true)
    · rw [if_pos hg]
      have hask : ¬ (0 < s.selectedImages.length ∧ aboveAverage h s item = true) :=
        fun hh => hn ⟨hg, List.length_pos.mp hh.1, hh.2⟩
      rw [dif_neg hask]
      rfl
    · rw [if_neg hg]

/-- C4: a candidate that passes both tests of line 178 is sent to the
confirmation step exactly when a frame is selected already and
`deltaY > avgDeltaY + deltaYThreshold` holds in `float64`, with
`deltaY = float64(minPoint.Y) - float64(Min.Y)` and
`deltaYThreshold = 0.01 * float64(h)`; the call is made on the last selected
path and the path of the candidate. No call is made while nothing is selected,
nor for a candidate that fails a test of line 178. -/
theorem confirmation_sent_iff (confirm : String → String → Bool) (w h : Int) (s : LoopState)
    (item : matchedTemplateOutput) :
    deltaYThreshold h = Float64.mul Float64.c001 (Float64.ofInt h) ∧
    deltaYOf s item =
      Float64.sub (Float64.ofInt s.minPoint.Y) (Float64.ofInt item.rect.Min.Y) ∧
    aboveAverage h s item =
      Float64.lt (Float64.add s.avgDeltaY (deltaYThreshold h)) (deltaYOf s item) ∧
    (gatesPass w s item ∧ s.selectedImages ≠ [] ∧ aboveAverage h s item = true →
      ∃ last, s.selectedImages.getLast? = some last ∧
        (step confirm w h s item).confirmCalls = s.confirmCalls ++ [(last, item.imagePath)]) ∧
    (¬ (gatesPass w s item ∧ s.selectedImages ≠ [] ∧ aboveAverage h s item = true) →
      (step confirm w h s item).confirmCalls = s.confirmCalls) ∧
    (s.selectedImages = [] → (step confirm w h s item).confirmCalls = s.confirmCalls) ∧
    (¬ gatesPass w s item → (step confirm w h s item).confirmCalls = s.confirmCalls) := by
  obtain ⟨hyes, hno⟩ := step_confirmCalls confirm w h s item
  exact ⟨rfl, rfl, rfl, hyes, hno, fun hnil => hno (fun hh => hh.2.1 hnil),
    fun hg => hno (fun hh => hg hh.1)⟩

/-- A pass in which the rounding of `float64` decides: with `h = 200`
(`deltaYThreshold = 2`), `avgDeltaY = 2 - 2 ^ (-52)` and a candidate `4` above
`minPoint`, the sum `avgDeltaY + deltaYThreshold` rounds to `4`, so `4 > 4` is
false, no confirmation is asked and `avgDeltaY` becomes `3`. -/
theorem rounded_sum_asks_nothing (confirm : String → String → Bool) (w : Int) :
    deltaYThreshold 200 = Float64.ofInt 2 ∧
    Float64.add ⟨2 ^ 53 - 1, -52⟩ (deltaYThreshold 200) = Float64.ofInt 4 ∧
    (step confirm w 200
      { minPoint := ⟨0, 95⟩, avgDeltaY := ⟨2 ^ 53 - 1, -52⟩, selectedImages := ["img53.jpg"],
        selectedItems := [⟨⟨⟨0, 95⟩, ⟨10, 105⟩⟩, "img53.jpg"⟩], confirmCalls := [] }
      ⟨⟨⟨0, 91⟩, ⟨10, 101⟩⟩, "img54.jpg"⟩) =
      { minPoint := ⟨0, 91⟩, avgDeltaY := Float64.ofInt 3,
        selectedImages := ["img53.jpg", "img54.jpg"],
        selectedItems := [⟨⟨⟨0, 95⟩, ⟨10, 105⟩⟩, "img53.jpg"⟩,
          ⟨⟨⟨0, 91⟩, ⟨10, 101⟩⟩, "img54.jpg"⟩],
        confirmCalls := [] } := by
  refine ⟨by decide, by decide, ?_⟩
  rw [step_eq_accept confirm w 200 _ _ ⟨by decide, Or.inl rfl⟩ (by decide)]
  decide

theorem step_of_confirmRejects (confirm : String → String → Bool) (w h : Int) (s : LoopState)
    (item : matchedTemplateOutput) (hrej : ConfirmRejects confirm w h s item) :
    Unchanged s (step confirm w h s item) := by
  obtain ⟨hg, last, hlast, hd, hc⟩ := hrej
  unfold gatesPass at hg
  have hne : s.selectedImages ≠ [] := by
    intro hnil
    rw [hnil] at hlast
    simp at hlast
  have hask : 0 < s.selectedImages.length ∧ aboveAverage h s item = true :=
    ⟨List.length_pos.mpr hne, hd⟩
  have hl : s.selectedImages.getLast hne = last := by
    have := List.getLast?_eq_getLast _ hne
    rw [hlast] at this
    exact (Option.some.inj this).symm
  unfold step
  dsimp only
  rw [if_pos hg, dif_pos hask]
  have hc2 : confirm (s.selectedImages.getLast hne) item.imagePath = false := by rw [hl]; exact hc
  rw [if_pos hc2]
  exact ⟨rfl, rfl, rfl, rfl⟩

/-- A pass reads the three loop variables only, not the history. -/
theorem step_congr (confirm : String → String → Bool) (w h : Int) (s t : LoopState)
    (x : matchedTemplateOutput) (hst : Unchanged s t) :
    Unchanged (step confirm w h s x) (step confirm w h t x) := by
  obtain ⟨mp, avg, imgs, items, log⟩ := s
  obtain ⟨mp2, avg2, imgs2, items2, log2⟩ := t
  obtain ⟨h1, h2, h3, h4⟩ := hst
  simp only at h1 h2 h3 h4
  subst h1 h2 h3 h4
  unfold step Unchanged aboveAverage deltaYOf
  dsimp only
  split_ifs <;> simp [accept]

theorem runLoop_congr (confirm : String → String → Bool) (w h : Int)
    (xs : List matchedTemplateOutput) (s t : LoopState) (hst : Unchanged s t) :
    Unchanged (runLoop confirm w h s xs) (runLoop confirm w h t xs) := by
  induction xs generalizing s t with
  | nil => exact hst
  | cons x xs ih => exact ih _ _ (step_congr confirm w h s t x hst)

/-- C5: when the confirmation step rejects a candidate, the pass leaves
`minPoint`, `avgDeltaY` and the selected list as they were, so the next
candidate is judged against the state of the last accepted frame; and the run
on an input with the rejected candidate removed ends with the same output and
the same state. -/
theorem confirm_rejection_keeps_state (confirm : String → String → Bool) (w h : Int)
    (pre post : List matchedTemplateOutput) (c : matchedTemplateOutput)
    (hrej : ConfirmRejects confirm w h (selectionLoop confirm w h pre) c) :
    Unchanged (selectionLoop confirm w h pre)
      (step confirm w h (selectionLoop confirm w h pre) c) ∧
    (∀ next, Unchanged (step confirm w h (selectionLoop confirm w h pre) next)
      (step confirm w h (step confirm w h (selectionLoop confirm w h pre) c) next)) ∧
    Unchanged (selectionLoop confirm w h (pre ++ post))
      (selectionLoop confirm w h (pre ++ c :: post)) ∧
    (selectionLoop confirm w h (pre ++ c :: post)).selectedImages =
      (selectionLoop confirm w h (pre ++ post)).selectedImages := by
  have hstep := step_of_confirmRejects confirm w h _ c hrej
  have hrun : Unchanged (selectionLoop confirm w h (pre ++ post))
      (selectionLoop confirm w h (pre ++ c :: post)) := by
    unfold selectionLoop
    rw [runLoop_append, runLoop_append, runLoop_cons]
    exact runLoop_congr confirm w h post _ _ hstep
  exact ⟨hstep, fun next => step_congr confirm w h _ _ next hstep, hrun, hrun.2.2.1⟩

/-- Witness of C5: with `h = 100` the frame at `Y = 90` is accepted
(`avgDeltaY = 10`), the frame at `Y = 30` jumps by `60 > 10 + 1` and is
rejected by the operator, and the frame at `Y = 80` is then accepted against
`minPoint.Y = 90`. -/
theorem confirm_rejection_keeps_state_witness :
    ConfirmRejects (fun _ _ => false) 100 100
      (selectionLoop (fun _ _ => false) 100 100 [⟨⟨⟨5, 90⟩, ⟨15, 100⟩⟩, "img1.jpg"⟩])
      ⟨⟨⟨5, 30⟩, ⟨15, 40⟩⟩, "img2.jpg"⟩ ∧
    (selectionLoop (fun _ _ => false) 100 100
      ([⟨⟨⟨5, 90⟩, ⟨15, 100⟩⟩, "img1.jpg"⟩] ++
        ⟨⟨⟨5, 30⟩, ⟨15, 40⟩⟩, "img2.jpg"⟩ :: [⟨⟨⟨5, 80⟩, ⟨15, 90⟩⟩, "img3.jpg"⟩])).selectedImages =
    (selectionLoop (fun _ _ => false) 100 100
      ([⟨⟨⟨5, 90⟩, ⟨15, 100⟩⟩, "img1.jpg"⟩] ++
        [⟨⟨⟨5, 80⟩, ⟨15, 90⟩⟩, "img3.jpg"⟩])).selectedImages ∧
    (selectionLoop (fun _ _ => false) 100 100
      ([⟨⟨⟨5, 90⟩, ⟨15, 100⟩⟩, "img1.jpg"⟩] ++
        [⟨⟨⟨5, 80⟩, ⟨15, 90⟩⟩, "img3.jpg"⟩])).selectedImages = ["img1.jpg", "img3.jpg"] := by
  have hrej : ConfirmRejects (fun _ _ => false) 100 100
      (selectionLoop (fun _ _ => false) 100 100 [⟨⟨⟨5, 90⟩, ⟨15, 100⟩⟩, "img1.jpg"⟩])
      ⟨⟨⟨5, 30⟩, ⟨15, 40⟩⟩, "img2.jpg"⟩ :=
    ⟨⟨by decide, Or.inr (by decide)⟩, "img1.jpg", by decide, by decide, rfl⟩
  exact ⟨hrej, (confirm_rejection_keeps_state (fun _ _ => false) 100 100
    [⟨⟨⟨5, 90⟩, ⟨15, 100⟩⟩, "img1.jpg"⟩] [⟨⟨⟨5, 80⟩, ⟨15, 90⟩⟩, "img3.jpg"⟩]
    ⟨⟨⟨5, 30⟩, ⟨15, 40⟩⟩, "img2.jpg"⟩ hrej).2.2.2, by decide⟩

/-- C6: on coordinates that `float64` holds exactly (every pixel coordinate),
after any part of the input `avgDeltaY` is zero exactly when nothing is
selected yet, and positive otherwise, an accepted frame having a positive
`deltaY` and the rounded sum of two positive values being positive; hence a
pass that accepts a frame sets `avgDeltaY` to `deltaY` when it is the first
acceptance and to the `float64` value of `(avgDeltaY + deltaY) / 2`
otherwise. -/
theorem avgDeltaY_update (confirm : String → String → Bool) (w h : Int)
    (pre : List matchedTemplateOutput) (item : matchedTemplateOutput)
    (hh : exactInFloat64 h) (hpre : ∀ r ∈ pre, exactInFloat64 r.rect.Min.Y) :
    ((selectionLoop confirm w h pre).avgDeltaY.isZero = true ↔
      (selectionLoop confirm w h pre).selectedImages = []) ∧
    ((selectionLoop confirm w h pre).selectedImages ≠ [] →
      0 < (selectionLoop confirm w h pre).avgDeltaY.toRat) ∧
    ((step confirm w h (selectionLoop confirm w h pre) item).selectedImages ≠
        (selectionLoop confirm w h pre).selectedImages →
      (step confirm w h (selectionLoop confirm w h pre) item).selectedImages =
        (selectionLoop confirm w h pre).selectedImages ++ [item.imagePath] ∧
      (step confirm w h (selectionLoop confirm w h pre) item).avgDeltaY =
        if (selectionLoop confirm w h pre).selectedImages = [] then
          deltaYOf (selectionLoop confirm w h pre) item
        else
          Float64.half (Float64.add (selectionLoop confirm w h pre).avgDeltaY
            (deltaYOf (selectionLoop confirm w h pre) item))) := by
  have hinv := inv_selectionLoop confirm w h pre
  have havg : AvgInv (selectionLoop confirm w h pre) :=
    avgInv_runLoop confirm w h pre _ hpre (avgInv_init h hh)
  generalize selectionLoop confirm w h pre = s at hinv havg ⊢
  have hnil : s.selectedImages = [] ↔ s.selectedItems = [] := by
    rw [hinv.paths]
    exact List.map_eq_nil_iff
  have hzero : s.avgDeltaY.isZero = true ↔ s.selectedImages = [] := by
    constructor
    · intro h0
      by_contra hne
      have hpos := havg.pos (fun hh => hne (hnil.mpr hh))
      have : s.avgDeltaY.mant = 0 := by simpa [Float64.isZero] using h0
      omega
    · intro hh
      simp [Float64.isZero, havg.zero (hnil.mp hh)]
  refine ⟨hzero, fun hne => (toRat_pos_iff _).mpr (havg.pos (fun hh => hne (hnil.mpr hh))), ?_⟩
  intro hch
  rcases step_cases confirm w h s item with hu | ha
  · exact absurd hu.2.2.1 hch
  · refine ⟨ha.2.2.2.1, ?_⟩
    rw [ha.2.2.1]
    by_cases h0 : s.avgDeltaY.isZero = true
    · rw [if_pos h0, if_pos (hzero.mp h0)]
    · rw [if_neg h0, if_neg (fun hh => h0 (hzero.mpr hh))]

/-- Witness of C6: with `h = 500`, after the frame at `Y = 100` is accepted
`avgDeltaY` is `400`, not zero, and the frame at `Y = 80` turns it into
`(400 + 20) / 2 = 210`. -/
theorem avgDeltaY_update_witness :
    exactInFloat64 500 ∧
    (selectionLoop (fun _ _ => true) 100 500
      [⟨⟨⟨7, 100⟩, ⟨17, 110⟩⟩, "img1.jpg"⟩]).avgDeltaY.isZero = false ∧
    (0 < (selectionLoop (fun _ _ => true) 100 500
      [⟨⟨⟨7, 100⟩, ⟨17, 110⟩⟩, "img1.jpg"⟩]).avgDeltaY.toRat) ∧
    (step (fun _ _ => true) 100 500
      (selectionLoop (fun _ _ => true) 100 500 [⟨⟨⟨7, 100⟩, ⟨17, 110⟩⟩, "img1.jpg"⟩])
      ⟨⟨⟨7, 80⟩, ⟨17, 90⟩⟩, "img2.jpg"⟩).avgDeltaY =
      Float64.half (Float64.add (Float64.ofInt 400) (Float64.ofInt 20)) ∧
    Float64.half (Float64.add (Float64.ofInt 400) (Float64.ofInt 20)) = Float64.ofInt 210 := by
  have hh : exactInFloat64 500 := by norm_num [exactInFloat64]
  have hpre : ∀ r ∈ [(⟨⟨⟨7, 100⟩, ⟨17, 110⟩⟩, "img1.jpg"⟩ : matchedTemplateOutput)],
      exactInFloat64 r.rect.Min.Y := by
    intro r hr
    simp at hr
    subst hr
    norm_num [exactInFloat64]
  have hthm := avgDeltaY_update (fun _ _ => true) 100 500
    [⟨⟨⟨7, 100⟩, ⟨17, 110⟩⟩, "img1.jpg"⟩] ⟨⟨⟨7, 80⟩, ⟨17, 90⟩⟩, "img2.jpg"⟩ hh hpre
  refine ⟨hh, by decide, hthm.2.1 (by decide), ?_, by decide⟩
  have h3 := (hthm.2.2 (by decide)).2
  rw [if_neg (by decide)] at h3
  rw [h3]
  decide

/-- C7 as stated fails: on the three frames at `Y = 100, 80, 60` with
`h = 500` the loop does not end with all three accepted and `avgDeltaY = 20`. -/
theorem three_frames_avg_not_20 :
    ¬ ((selectionLoop (fun _ _ => true) 100 500
          (threeFrames 7 ⟨17, 110⟩ ⟨17, 90⟩ ⟨17, 70⟩ "img1.jpg" "img2.jpg" "img3.jpg")).selectedImages
        = ["img1.jpg", "img2.jpg", "img3.jpg"] ∧
      (selectionLoop (fun _ _ => true) 100 500
          (threeFrames 7 ⟨17, 110⟩ ⟨17, 90⟩ ⟨17, 70⟩ "img1.jpg" "img2.jpg" "img3.jpg")).avgDeltaY
        = Float64.ofInt 20) := by
  decide

/-- C7, amended: for a width `w > 0` the loop accepts all three frames at
`Y = 100, 80, 60` with `h = 500`, without asking for confirmation, and
`avgDeltaY` is `400 = h - 100` after the first acceptance, `210` after the
second and `115` after the third. -/
theorem three_frames_avg_115 (confirm : String → String → Bool) (w x : Int)
    (m1 m2 m3 : Point) (p1 p2 p3 : String) (hw : 0 < w) :
    (selectionLoop confirm w 500 (threeFrames x m1 m2 m3 p1 p2 p3)).selectedImages
      = [p1, p2, p3] ∧
    (selectionLoop confirm w 500 (threeFrames x m1 m2 m3 p1 p2 p3)).confirmCalls = [] ∧
    (selectionLoop confirm w 500
      ((threeFrames x m1 m2 m3 p1 p2 p3).take 1)).avgDeltaY.toRat = 400 ∧
    (selectionLoop confirm w 500
      ((threeFrames x m1 m2 m3 p1 p2 p3).take 2)).avgDeltaY.toRat = 210 ∧
    (selectionLoop confirm w 500 (threeFrames x m1 m2 m3 p1 p2 p3)).avgDeltaY.toRat = 115 ∧
    (selectionLoop confirm w 500 (threeFrames x m1 m2 m3 p1 p2 p3)).avgDeltaY
      = Float64.ofInt 115 := by
  have d1 : Float64.sub (Float64.ofInt 500) (Float64.ofInt 100) = Float64.ofInt 400 := by
    decide
  have d2 : Float64.sub (Float64.ofInt 100) (Float64.ofInt 80) = Float64.ofInt 20 := by
    decide
  have d3 : Float64.sub (Float64.ofInt 80) (Float64.ofInt 60) = Float64.ofInt 20 := by
    decide
  have a2 : Float64.lt (Float64.add (Float64.ofInt 400) (deltaYThreshold 500))
      (Float64.sub (Float64.ofInt 100) (Float64.ofInt 80)) = false := by decide
  have a3 : Float64.lt (Float64.add (Float64.ofInt 210) (deltaYThreshold 500))
      (Float64.sub (Float64.ofInt 80) (Float64.ofInt 60)) = false := by decide
  have avg2 : Float64.half (Float64.add (Float64.ofInt 400) (Float64.ofInt 20)) =
      Float64.ofInt 210 := by decide
  have avg3 : Float64.half (Float64.add (Float64.ofInt 210) (Float64.ofInt 20)) =
      Float64.ofInt 115 := by decide
  have z0 : Float64.zero.isZero = true := by decide
  have z400 : ¬ (Float64.ofInt 400).isZero = true := by decide
  have z210 : ¬ (Float64.ofInt 210).isZero = true := by decide
  have h1 : step confirm w 500 (initState 500) ⟨⟨⟨x, 100⟩, m1⟩, p1⟩ =
      { minPoint := ⟨x, 100⟩, avgDeltaY := Float64.ofInt 400, selectedImages := [p1],
        selectedItems := [⟨⟨⟨x, 100⟩, m1⟩, p1⟩], confirmCalls := [] } := by
    have hg : gatesPass w (initState 500) ⟨⟨⟨x, 100⟩, m1⟩, p1⟩ :=
      ⟨by show (100 : Int) < 500; decide, Or.inl rfl⟩
    rw [step_eq_accept confirm w 500 _ _ hg
      (fun hh => absurd hh.1 (by show ¬ (0 < 0); decide))]
    show ({ minPoint := ⟨x, 100⟩,
            avgDeltaY := if Float64.zero.isZero = true then
                Float64.sub (Float64.ofInt 500) (Float64.ofInt 100)
              else Float64.half (Float64.add Float64.zero
                (Float64.sub (Float64.ofInt 500) (Float64.ofInt 100))),
            selectedImages := [p1], selectedItems := [⟨⟨⟨x, 100⟩, m1⟩, p1⟩],
            confirmCalls := [] } : LoopState) = _
    rw [if_pos z0, d1]
  have h2 : step confirm w 500
      { minPoint := ⟨x, 100⟩, avgDeltaY := Float64.ofInt 400, selectedImages := [p1],
        selectedItems := [⟨⟨⟨x, 100⟩, m1⟩, p1⟩], confirmCalls := [] } ⟨⟨⟨x, 80⟩, m2⟩, p2⟩ =
      { minPoint := ⟨x, 80⟩, avgDeltaY := Float64.ofInt 210, selectedImages := [p1, p2],
        selectedItems := [⟨⟨⟨x, 100⟩, m1⟩, p1⟩, ⟨⟨⟨x, 80⟩, m2⟩, p2⟩], confirmCalls := [] } := by
    have hg : gatesPass w
        { minPoint := ⟨x, 100⟩, avgDeltaY := Float64.ofInt 400, selectedImages := [p1],
          selectedItems := [⟨⟨⟨x, 100⟩, m1⟩, p1⟩], confirmCalls := [] }
        ⟨⟨⟨x, 80⟩, m2⟩, p2⟩ :=
      ⟨by show (80 : Int) < 100; decide, Or.inr (driftBelow_self w x 100 80 hw)⟩
    have hask : ¬ (0 < ([p1] : List String).length ∧
        Float64.lt (Float64.add (Float64.ofInt 400) (deltaYThreshold 500))
          (Float64.sub (Float64.ofInt 100) (Float64.ofInt 80)) = true) := by
      rw [a2]
      simp
    rw [step_eq_accept confirm w 500 _ _ hg hask]
    show ({ minPoint := ⟨x, 80⟩,
            avgDeltaY := if (Float64.ofInt 400).isZero = true then
                Float64.sub (Float64.ofInt 100) (Float64.ofInt 80)
              else Float64.half (Float64.add (Float64.ofInt 400)
                (Float64.sub (Float64.ofInt 100) (Float64.ofInt 80))),
            selectedImages := [p1, p2],
            selectedItems := [⟨⟨⟨x, 100⟩, m1⟩, p1⟩, ⟨⟨⟨x, 80⟩, m2⟩, p2⟩],
            confirmCalls := [] } : LoopState) = _
    rw [if_neg z400, d2, avg2]
  have h3 : step confirm w 500
      { minPoint := ⟨x, 80⟩, avgDeltaY := Float64.ofInt 210, selectedImages := [p1, p2],
        selectedItems := [⟨⟨⟨x, 100⟩, m1⟩, p1⟩, ⟨⟨⟨x, 80⟩, m2⟩, p2⟩], confirmCalls := [] }
        ⟨⟨⟨x, 60⟩, m3⟩, p3⟩ =
      { minPoint := ⟨x, 60⟩, avgDeltaY := Float64.ofInt 115, selectedImages := [p1, p2, p3],
        selectedItems := [⟨⟨⟨x, 100⟩, m1⟩, p1⟩, ⟨⟨⟨x, 80⟩, m2⟩, p2⟩, ⟨⟨⟨x, 60⟩, m3⟩, p3⟩],
        confirmCalls := [] } := by
    have hg : gatesPass w
        { minPoint := ⟨x, 80⟩, avgDeltaY := Float64.ofInt 210, selectedImages := [p1, p2],
          selectedItems := [⟨⟨⟨x, 100⟩, m1⟩, p1⟩, ⟨⟨⟨x, 80⟩, m2⟩, p2⟩], confirmCalls := [] }
        ⟨⟨⟨x, 60⟩, m3⟩, p3⟩ :=
      ⟨by show (60 : Int) < 80; decide, Or.inr (driftBelow_self w x 80 60 hw)⟩
    have hask : ¬ (0 < ([p1, p2] : List String).length ∧
        Float64.lt (Float64.add (Float64.ofInt 210) (deltaYThreshold 500))
          (Float64.sub (Float64.ofInt 80) (Float64.ofInt 60)) = true) := by
      rw [a3]
      simp
    rw [step_eq_accept confirm w 500 _ _ hg hask]
    show ({ minPoint := ⟨x, 60⟩,
            avgDeltaY := if (Float64.ofInt 210).isZero = true then
                Float64.sub (Float64.ofInt 80) (Float64.ofInt 60)
              else Float64.half (Float64.add (Float64.ofInt 210)
                (Float64.sub (Float64.ofInt 80) (Float64.ofInt 60))),
            selectedImages := [p1, p2, p3],
            selectedItems := [⟨⟨⟨x, 100⟩, m1⟩, p1⟩, ⟨⟨⟨x, 80⟩, m2⟩, p2⟩,
              ⟨⟨⟨x, 60⟩, m3⟩, p3⟩],
            confirmCalls := [] } : LoopState) = _
    rw [if_neg z210, d3, avg3]
  have e400 : (Float64.ofInt 400).toRat = 400 := by
    simpa using ofInt_toRat 400 (by norm_num [exactInFloat64])
  have e210 : (Float64.ofInt 210).toRat = 210 := by
    simpa using ofInt_toRat 210 (by norm_num [exactInFloat64])
  have e115 : (Float64.ofInt 115).toRat = 115 := by
    simpa using ofInt_toRat 115 (by norm_num [exactInFloat64])
  have r1 : selectionLoop confirm w 500 ((threeFrames x m1 m2 m3 p1 p2 p3).take 1) =
      { minPoint := ⟨x, 100⟩, avgDeltaY := Float64.ofInt 400, selectedImages := [p1],
        selectedItems := [⟨⟨⟨x, 100⟩, m1⟩, p1⟩], confirmCalls := [] } := by
    show runLoop confirm w 500 (initState 500) [⟨⟨⟨x, 100⟩, m1⟩, p1⟩] = _
    rw [runLoop_cons, runLoop_nil, h1]
  have r2 : selectionLoop confirm w 500 ((threeFrames x m1 m2 m3 p1 p2 p3).take 2) =
      { minPoint := ⟨x, 80⟩, avgDeltaY := Float64.ofInt 210, selectedImages := [p1, p2],
        selectedItems := [⟨⟨⟨x, 100⟩, m1⟩, p1⟩, ⟨⟨⟨x, 80⟩, m2⟩, p2⟩], confirmCalls := [] } := by
    show runLoop confirm w 500 (initState 500)
      [⟨⟨⟨x, 100⟩, m1⟩, p1⟩, ⟨⟨⟨x, 80⟩, m2⟩, p2⟩] = _
    rw [runLoop_cons, runLoop_cons, runLoop_nil, h1, h2]
  have r3 : selectionLoop confirm w 500 (threeFrames x m1 m2 m3 p1 p2 p3) =
      { minPoint := ⟨x, 60⟩, avgDeltaY := Float64.ofInt 115, selectedImages := [p1, p2, p3],
        selectedItems := [⟨⟨⟨x, 100⟩, m1⟩, p1⟩, ⟨⟨⟨x, 80⟩, m2⟩, p2⟩, ⟨⟨⟨x, 60⟩, m3⟩, p3⟩],
        confirmCalls := [] } := by
    show runLoop confirm w 500 (initState 500)
      [⟨⟨⟨x, 100⟩, m1⟩, p1⟩, ⟨⟨⟨x, 80⟩, m2⟩, p2⟩, ⟨⟨⟨x, 60⟩, m3⟩, p3⟩] = _
    rw [runLoop_cons, runLoop_cons, runLoop_cons, runLoop_nil, h1, h2, h3]
  rw [r1, r2, r3]
  exact ⟨rfl, rfl, e400, e210, e115, rfl⟩

/-- Witness of C7, amended: the scenario with `w = 100` and `Min.X = 7`. -/
theorem three_frames_avg_115_witness :
    (0 : Int) < 100 ∧
    (selectionLoop (fun _ _ => true) 100 500
        (threeFrames 7 ⟨17, 110⟩ ⟨17, 90⟩ ⟨17, 70⟩ "img1.jpg" "img2.jpg" "img3.jpg")).selectedImages
      = ["img1.jpg", "img2.jpg", "img3.jpg"] ∧
    (selectionLoop (fun _ _ => true) 100 500
        (threeFrames 7 ⟨17, 110⟩ ⟨17, 90⟩ ⟨17, 70⟩ "img1.jpg" "img2.jpg"
          "img3.jpg")).avgDeltaY.toRat
      = 115 :=
  ⟨by decide,
    (three_frames_avg_115 (fun _ _ => true) 100 7 ⟨17, 110⟩ ⟨17, 90⟩ ⟨17, 70⟩
      "img1.jpg" "img2.jpg" "img3.jpg" (by decide)).1,
    (three_frames_avg_115 (fun _ _ => true) 100 7 ⟨17, 110⟩ ⟨17, 90⟩ ⟨17, 70⟩
      "img1.jpg" "img2.jpg" "img3.jpg" (by decide)).2.2.2.2.1⟩

/-! ## Claims on the set-up and on the matching stage -/

/-- C8 as stated fails: for a resized first frame of 100 by 80 pixels and a
selected region of 20 by 40 pixels, `minPoint` does not start at the height of
the pattern and neither threshold is the one of the pattern. -/
theorem setup_dimensions_not_of_pattern :
    (initState (filterSetup (fun _ => ⟨⟨10, 10⟩, ⟨30, 50⟩⟩) ⟨100, 80⟩).2.1).minPoint ≠
        ⟨0, (filterSetup (fun _ => ⟨⟨10, 10⟩, ⟨30, 50⟩⟩) ⟨100, 80⟩).2.2.Rows⟩ ∧
    deltaYThreshold (filterSetup (fun _ => ⟨⟨10, 10⟩, ⟨30, 50⟩⟩) ⟨100, 80⟩).2.1 ≠
        Float64.mul Float64.c001
          (Float64.ofInt (filterSetup (fun _ => ⟨⟨10, 10⟩, ⟨30, 50⟩⟩) ⟨100, 80⟩).2.2.Rows) ∧
    templateXThreshold (filterSetup (fun _ => ⟨⟨10, 10⟩, ⟨30, 50⟩⟩) ⟨100, 80⟩).1 ≠
        Float64.mul Float64.c002
          (Float64.ofInt (filterSetup (fun _ => ⟨⟨10, 10⟩, ⟨30, 50⟩⟩) ⟨100, 80⟩).2.2.Cols) := by
  refine ⟨by decide, by decide, by decide⟩

/-- C8, amended: `w` and `h` are the width and height of the resized first
frame, read before the region is selected: `filterImages` runs the sort and
the selection loop with these two values, so `minPoint` starts at
`(0, frame height)`, `deltaYThreshold` is `0.01 * frame height` and
`templateXThreshold` is `0.02 * frame width`, while the pattern has the size of
the selected region. -/
theorem setup_dimensions_of_first_frame
    (sortSlice : List matchedTemplateOutput → Option (List matchedTemplateOutput))
    (confirm : String → String → Bool)
    (selectROI : Mat → Rectangle) (readResized : String → Mat)
    (collect : Mat → List String → List matchedTemplateOutput)
    (p0 : String) (ps : List String) :
    filterSetup selectROI (readResized p0) =
      ((readResized p0).Cols, (readResized p0).Rows,
        extractTemplate selectROI (readResized p0)) ∧
    (extractTemplate selectROI (readResized p0)).Cols = (selectROI (readResized p0)).Dx ∧
    (extractTemplate selectROI (readResized p0)).Rows = (selectROI (readResized p0)).Dy ∧
    filterImages sortSlice confirm selectROI readResized collect (p0 :: ps) =
      selectImages sortSlice confirm (readResized p0).Cols (readResized p0).Rows
        (collect (extractTemplate selectROI (readResized p0)) (p0 :: ps)) ∧
    (initState (readResized p0).Rows).minPoint = ⟨0, (readResized p0).Rows⟩ ∧
    deltaYThreshold (readResized p0).Rows =
      Float64.mul Float64.c001 (Float64.ofInt (readResized p0).Rows) ∧
    templateXThreshold (readResized p0).Cols =
      Float64.mul Float64.c002 (Float64.ofInt (readResized p0).Cols) :=
  ⟨rfl, rfl, rfl, rfl, rfl, rfl, rfl⟩

/-- C10, evaluated where it fails: on one path and two workers, the schedule
in which the goroutine of lines 149-152 runs before any worker has reached
`wg.Add(1)` finds the counter at zero, closes `outCh`, and the main goroutine
ends its collection with no result at all. A schedule in which the workers
run first collects the one result. -/
theorem results_lost_when_closer_runs_first :
    (Pipeline.run (fun _ => ⟨⟨3, 4⟩, ⟨13, 14⟩⟩) (Pipeline.start 2 ["img1.jpg"])
        [Action.closer, Action.closer, Action.collect]).map
      (fun s => (s.collected, s.results)) = some (true, []) ∧
    (Pipeline.run (fun _ => ⟨⟨3, 4⟩, ⟨13, 14⟩⟩) (Pipeline.start 2 ["img1.jpg"])
        [Action.worker 0, Action.worker 1, Action.produce, Action.produce,
          Action.worker 0, Action.worker 0, Action.worker 0, Action.worker 1,
          Action.closer, Action.closer, Action.collect, Action.collect]).map
      (fun s => (s.collected, s.results)) =
        some (true, [⟨⟨⟨3, 4⟩, ⟨13, 14⟩⟩, "img1.jpg"⟩]) := by
  constructor <;> decide

/-! ## Claims on `extractImageNumber` -/

theorem takeWhile_digits_append (ds rest : List Char) (hds : ∀ c ∈ ds, isDigit c = true)
    (hrest : ∀ c, rest.head? = some c → isDigit c = false) :
    (ds ++ rest).takeWhile isDigit = ds ∧ (ds ++ rest).dropWhile isDigit = rest := by
  induction ds with
  | nil =>
    cases rest with
    | nil => simp
    | cons r rs =>
      have hr : isDigit r = false := hrest r rfl
      simp [List.takeWhile, List.dropWhile, hr]
  | cons d ds ih =>
    have hd : isDigit d = true := hds d (List.mem_cons_self _ _)
    obtain ⟨h1, h2⟩ := ih (fun c hc => hds c (List.mem_cons_of_mem _ hc))
    simp [List.takeWhile, List.dropWhile, hd, h1, h2]

theorem matchHere_sound (s r : List Char) (hm : matchHere s = some r) :
    ∃ ext, s = r ++ '.' :: ext ∧ r ≠ [] ∧ (∀ c ∈ r, isDigit c = true) ∧
      ext ≠ [] ∧ ext.all isWord = true := by
  have hsplit : s.takeWhile isDigit ++ s.dropWhile isDigit = s := List.takeWhile_append_dropWhile _ _
  have hdig : ∀ c ∈ s.takeWhile isDigit, isDigit c = true := fun c hc => List.mem_takeWhile_imp hc
  unfold matchHere at hm
  split at hm
  · rename_i d ds ext h1 h2
    by_cases hext : ext ≠ [] ∧ ext.all isWord = true
    · rw [if_pos hext] at hm
      cases hm
      refine ⟨ext, ?_, List.cons_ne_nil _ _, ?_, hext.1, hext.2⟩
      · rw [← hsplit, h1, h2]
      · rw [← h1]; exact hdig
    · rw [if_neg hext] at hm
      cases hm
  · cases hm

theorem matchHere_complete (ds ext : List Char) (hne : ds ≠ [])
    (hds : ∀ c ∈ ds, isDigit c = true) (hext : ext ≠ []) (hword : ext.all isWord = true) :
    matchHere (ds ++ '.' :: ext) = some ds := by
  obtain ⟨h1, h2⟩ := takeWhile_digits_append ds ('.' :: ext) hds (by
    intro c hc
    simp at hc
    subst hc
    decide)
  unfold matchHere
  rw [h1, h2]
  cases ds with
  | nil => exact absurd rfl hne
  | cons d ds => simp [hext, hword]

theorem findSubmatch_sound (s r : List Char) (hm : findSubmatch s = some r) :
    ∃ stem ext, s = stem ++ r ++ '.' :: ext ∧ r ≠ [] ∧ (∀ c ∈ r, isDigit c = true) ∧
      ext ≠ [] ∧ ext.all isWord = true := by
  induction s with
  | nil => simp [findSubmatch] at hm
  | cons c cs ih =>
    unfold findSubmatch at hm
    cases hh : matchHere (c :: cs) with
    | some ds =>
      rw [hh] at hm
      cases hm
      obtain ⟨ext, h1, h2, h3, h4, h5⟩ := matchHere_sound _ _ hh
      exact ⟨[], ext, by simpa using h1, h2, h3, h4, h5⟩
    | none =>
      rw [hh] at hm
      obtain ⟨stem, ext, h1, h2, h3, h4, h5⟩ := ih hm
      exact ⟨c :: stem, ext, by simp [h1], h2, h3, h4, h5⟩

theorem dot_not_word_of_all (ext : List Char) (hword : ext.all isWord = true) : '.' ∉ ext := by
  intro hmem
  have := List.all_eq_true.mp hword '.' hmem
  revert this
  decide

/-- A text splits at its last dot in one way only. -/
theorem split_last_dot_unique (a b a2 b2 : List Char) (hb : '.' ∉ b) (hb2 : '.' ∉ b2)
    (heq : a ++ '.' :: b = a2 ++ '.' :: b2) : a = a2 ∧ b = b2 := by
  induction a generalizing a2 with
  | nil =>
    cases a2 with
    | nil => simpa using heq
    | cons x xs =>
      simp at heq
      exact absurd (heq.2 ▸ (by simp : '.' ∈ xs ++ '.' :: b2)) hb
  | cons y ys ih =>
    cases a2 with
    | nil =>
      simp at heq
      exact absurd (heq.2 ▸ (by simp : '.' ∈ ys ++ '.' :: b)) hb2
    | cons x xs =>
      simp at heq
      obtain ⟨h1, h2⟩ := ih xs heq.2
      exact ⟨by rw [heq.1, h1], h2⟩

theorem findSubmatch_complete (stem ds ext : List Char) (hne : ds ≠ [])
    (hds : ∀ c ∈ ds, isDigit c = true)
    (hmax : ∀ c, stem.getLast? = some c → isDigit c = false)
    (hext : ext ≠ []) (hword : ext.all isWord = true) :
    findSubmatch (stem ++ ds ++ '.' :: ext) = some ds := by
  induction stem with
  | nil =>
    cases hds2 : ds with
    | nil => exact absurd hds2 hne
    | cons d ds2 =>
      have := matchHere_complete ds ext hne hds hext hword
      rw [hds2] at this
      simp only [List.nil_append, List.cons_append] at this ⊢
      unfold findSubmatch
      rw [this]
  | cons c cs ih =>
    have hnone : matchHere (c :: cs ++ ds ++ '.' :: ext) = none := by
      cases hh : matchHere (c :: cs ++ ds ++ '.' :: ext) with
      | none => rfl
      | some r =>
        exfalso
        obtain ⟨ext2, h1, _, h3, _, h5⟩ := matchHere_sound _ _ hh
        obtain ⟨hr, _⟩ := split_last_dot_unique (c :: cs ++ ds) ext r ext2
          (dot_not_word_of_all ext hword) (dot_not_word_of_all ext2 h5) h1
        have hlast : ∃ l, (c :: cs).getLast? = some l := by
          rw [List.getLast?_eq_getLast _ (List.cons_ne_nil _ _)]
          exact ⟨_, rfl⟩
        obtain ⟨l, hl⟩ := hlast
        have hmem : l ∈ r := by
          rw [← hr]
          exact List.mem_append_left _ (List.mem_of_getLast?_eq_some hl)
        have := hmax l hl
        rw [h3 l hmem] at this
        cases this
    have hmax2 : ∀ c2, cs.getLast? = some c2 → isDigit c2 = false := by
      intro c2 hc2
      apply hmax
      cases cs with
      | nil => simp at hc2
      | cons x xs => rw [List.getLast?_cons_cons]; exact hc2
    have hrec := ih hmax2
    simp only [List.cons_append] at hnone ⊢
    unfold findSubmatch
    rw [hnone]
    exact hrec

theorem extractImageNumber_none_of_no_match (path : String)
    (hf : findSubmatch path.data = none) : extractImageNumber path = none := by
  unfold extractImageNumber
  rw [hf]

/-- C9 as stated fails: in `img7.jpg~` the run `7` stands right before the
final extension `.jpg~` and fits an `int`, yet no number is returned, the
expression asking for word characters up to the end of the path. -/
theorem number_before_extension_not_returned :
    "img7.jpg~".data = ['i', 'm', 'g'] ++ ['7'] ++ '.' :: ['j', 'p', 'g', '~'] ∧
    maximalRunBeforeExtension ['i', 'm', 'g'] ['7'] ['j', 'p', 'g', '~'] ∧
    (decimalValue ['7'] : Int) ≤ maxInt ∧
    extractImageNumber "img7.jpg~" = none ∧
    extractImageNumber "img7.jpg~" ≠ some (decimalValue ['7'] : Int) := by
  refine ⟨by decide, ⟨by decide, by decide, ?_, by decide⟩, by decide, by decide, by decide⟩
  intro c hc
  simp at hc
  subst hc
  decide

/-- C9, amended: a path with no digit right before its final extension ends in
the fatal error, and so does a path whose final extension is empty or holds a
character outside `[0-9A-Za-z_]`; a path whose final extension is a non-empty
run of such characters, with a run of digits right before it whose value fits
an `int`, gives the decimal value of the maximal run. So `DSCF01234.JPG` gives
1234 and `image.png` is fatal. -/
theorem extractImageNumber_of_path :
    (∀ path : String, ¬ digitBeforeExtension path.data → extractImageNumber path = none) ∧
    (∀ (path : String) (stem ext : List Char), path.data = stem ++ '.' :: ext → '.' ∉ ext →
      (ext = [] ∨ ext.all isWord = false) → extractImageNumber path = none) ∧
    (∀ (path : String) (stem digits ext : List Char),
      path.data = stem ++ digits ++ '.' :: ext → maximalRunBeforeExtension stem digits ext →
      ext ≠ [] → ext.all isWord = true → (decimalValue digits : Int) ≤ maxInt →
      extractImageNumber path = some (decimalValue digits : Int)) ∧
    extractImageNumber "DSCF01234.JPG" = some 1234 ∧
    extractImageNumber "image.png" = none := by
  refine ⟨?_, ?_, ?_, by decide, by decide⟩
  · intro path hno
    cases hf : findSubmatch path.data with
    | none => exact extractImageNumber_none_of_no_match path hf
    | some r =>
      exfalso
      obtain ⟨stem, ext, h1, h2, h3, _, h5⟩ := findSubmatch_sound _ _ hf
      apply hno
      refine ⟨stem ++ r.dropLast, r.getLast h2, ext, ?_, h3 _ (List.getLast_mem h2),
        dot_not_word_of_all ext h5⟩
      rw [h1]
      conv_lhs => rw [← List.dropLast_append_getLast h2]
      simp
  · intro path stem ext hpath hdot hbad
    cases hf : findSubmatch path.data with
    | none => exact extractImageNumber_none_of_no_match path hf
    | some r =>
      exfalso
      obtain ⟨stem2, ext2, h1, _, _, h4, h5⟩ := findSubmatch_sound _ _ hf
      rw [hpath] at h1
      obtain ⟨_, hext⟩ := split_last_dot_unique stem ext (stem2 ++ r) ext2 hdot
        (dot_not_word_of_all ext2 h5) h1
      subst hext
      rcases hbad with hnil | hnw
      · exact h4 hnil
      · rw [h5] at hnw
        cases hnw
  · intro path stem digits ext hpath hrun hext hword hfit
    obtain ⟨hne, hds, hmax, _⟩ := hrun
    have hf := findSubmatch_complete stem digits ext hne hds hmax hext hword
    unfold extractImageNumber
    rw [hpath, hf]
    simp [atoi, hfit]

end Timelapser
